import Mathlib

/-!
Shallow embedding of the rnet river-data pipeline (src/collect.rs,
src/delaunay.rs, src/tilelocate.rs) and proofs about it.

Machine integers of the source (u32, i64) are modelled as ℕ/ℤ with explicit
bounds where they matter; the source's f64 arithmetic on exactly-representable
integer-valued data is modelled as exact arithmetic over ℚ, and the purely
mathematical haversine formula is modelled over ℝ.
-/

set_option maxHeartbeats 1000000

/-- DEM pixel decoding from `collect_nodes` (collect.rs, lines 530-552):
for an RGB pixel, `x = 2^16*r + 2^8*g + b`, `u = 0.01`; the elevation is
`x*u` if `x < 2^23`, `(x - 2^24)*u` if `x > 2^23`, and `0` otherwise.
The f64 arithmetic of the source is exact on these integer inputs and is
modelled over ℚ. -/
def decodePixel (r g b : ℕ) : ℚ :=
  let x : ℚ := 2 ^ 16 * r + 2 ^ 8 * g + b
  let u : ℚ := 0.01
  if x < 2 ^ 23 then x * u
  else if x > 2 ^ 23 then (x - 2 ^ 24) * u
  else 0

/-- The decode step of `collect_nodes`: the AltitudeGrid obtained by mapping
`decodePixel` over the tile's pixel list (collect.rs, lines 530-551). -/
def decodeTile (pixels : List (ℕ × ℕ × ℕ)) : List ℚ :=
  pixels.map (fun p => decodePixel p.1 p.2.1 p.2.2)

/-- The elevation formula exactly as the spec words it: with
`x = 65536*R + 256*G + B` (an integer), elevation is `x*0.01` when
`x < 2^23`, `(x - 2^24)*0.01` when `x > 2^23`, and `0` when `x = 2^23`. -/
def specElevation (R G B : ℕ) : ℚ :=
  let x : ℕ := 65536 * R + 256 * G + B
  if x < 2 ^ 23 then (x : ℚ) * 0.01
  else if x > 2 ^ 23 then ((x : ℚ) - 2 ^ 24) * 0.01
  else 0

/-- The all-zero 256*256 fallback AltitudeGrid substituted by `collect_nodes`
when image decoding fails (collect.rs, line 552). -/
def fallbackGrid : List ℚ := List.replicate (256 * 256) 0

/-- Elevation lookup of `collect_nodes` (collect.rs, lines 559-560): index the
tile's AltitudeGrid at `(py % 256) * 256 + px % 256`. -/
def lookupAltitude (grid : List ℚ) (px py : ℕ) : Option ℚ :=
  grid[(py % 256) * 256 + px % 256]?

/-- The AABB of `collect.rs` (lines 220-226); coordinates are modelled over ℚ. -/
structure AABB where
  min_long : ℚ
  max_long : ℚ
  min_lat : ℚ
  max_lat : ℚ
deriving DecidableEq, Repr

/-- The validating constructor of `AABB::from_str` (collect.rs, lines 232-250),
applied to the four parsed numbers: the parse errors out whenever
`min_lat >= max_lat || min_long >= max_long`. -/
def AABB.fromStr (min_long max_long min_lat max_lat : ℚ) : Option AABB :=
  if min_lat ≥ max_lat ∨ min_long ≥ max_long then none
  else some ⟨min_long, max_long, min_lat, max_lat⟩

/-- The default AABB (collect.rs, lines 253-263), used when no explicit AABB
is supplied. -/
def AABB.default : AABB :=
  { min_long := 153 + 59 / 60 + 19 / 3600
    max_long := 122 + 55 / 60 + 57 / 3600
    min_lat := 45 + 33 / 60 + 26 / 3600
    max_lat := 20 + 25 / 60 + 31 / 3600 }

/-- Bit value of `RvRclFlags::SMALL_NORMAL` (collect.rs, lines 122-136). -/
def RvRclFlags.SMALL_NORMAL : ℕ := 0b000000001

/-- Bit value of `RvRclFlags::SMALL_DRY`. -/
def RvRclFlags.SMALL_DRY : ℕ := 0b000000010

/-- Bit value of `RvRclFlags::NORMAL`. -/
def RvRclFlags.NORMAL : ℕ := 0b000000100

/-- Bit value of `RvRclFlags::DRY`. -/
def RvRclFlags.DRY : ℕ := 0b000001000

/-- Bit value of `RvRclFlags::ARTIFICIAL_OPEN`. -/
def RvRclFlags.ARTIFICIAL_OPEN : ℕ := 0b000010000

/-- Bit value of `RvRclFlags::ARTIFICIAL_UNDERGROUND`. -/
def RvRclFlags.ARTIFICIAL_UNDERGROUND : ℕ := 0b000100000

/-- Bit value of `RvRclFlags::WATERWAY`. -/
def RvRclFlags.WATERWAY : ℕ := 0b001000000

/-- Bit value of `RvRclFlags::OTHER`. -/
def RvRclFlags.OTHER : ℕ := 0b010000000

/-- Bit value of `RvRclFlags::UNKNOWN`. -/
def RvRclFlags.UNKNOWN : ℕ := 0b100000000

/-- The full line-type flag set, `RvRclFlags::all()` of the bitflags crate:
the union of all nine defined flags. -/
def RvRclFlags.allFlags : ℕ :=
  RvRclFlags.SMALL_NORMAL ||| RvRclFlags.SMALL_DRY ||| RvRclFlags.NORMAL |||
  RvRclFlags.DRY ||| RvRclFlags.ARTIFICIAL_OPEN ||| RvRclFlags.ARTIFICIAL_UNDERGROUND |||
  RvRclFlags.WATERWAY ||| RvRclFlags.OTHER ||| RvRclFlags.UNKNOWN

/-- `RvRclFlags::from_str` (collect.rs, lines 138-168): the match over the
geojson spellings, the command-line short forms, and `"all"`; everything else
is an error (modelled as `none`). -/
def RvRclFlags.fromStr (s : String) : Option ℕ :=
  if s = "細河川（通常部）" then some RvRclFlags.SMALL_NORMAL
  else if s = "細河川（枯れ川部）" then some RvRclFlags.SMALL_DRY
  else if s = "河川中心線（通常部）" then some RvRclFlags.NORMAL
  else if s = "河川中心線（枯れ川部）" then some RvRclFlags.DRY
  else if s = "人工水路（空間）" then some RvRclFlags.ARTIFICIAL_OPEN
  else if s = "人工水路（地下）" then some RvRclFlags.ARTIFICIAL_UNDERGROUND
  else if s = "用水路" then some RvRclFlags.WATERWAY
  else if s = "その他" then some RvRclFlags.OTHER
  else if s = "不明" then some RvRclFlags.UNKNOWN
  else if s = "" then some RvRclFlags.UNKNOWN
  else if s = "sn" then some RvRclFlags.SMALL_NORMAL
  else if s = "sd" then some RvRclFlags.SMALL_DRY
  else if s = "n" then some RvRclFlags.NORMAL
  else if s = "d" then some RvRclFlags.DRY
  else if s = "ao" then some RvRclFlags.ARTIFICIAL_OPEN
  else if s = "au" then some RvRclFlags.ARTIFICIAL_UNDERGROUND
  else if s = "w" then some RvRclFlags.WATERWAY
  else if s = "o" then some RvRclFlags.OTHER
  else if s = "u" then some RvRclFlags.UNKNOWN
  else if s = "all" then some RvRclFlags.allFlags
  else none

/-- The closed set of tokens `RvRclFlags::from_str` recognizes. -/
def rvRclTokens : List String :=
  ["細河川（通常部）", "細河川（枯れ川部）", "河川中心線（通常部）", "河川中心線（枯れ川部）",
   "人工水路（空間）", "人工水路（地下）", "用水路", "その他", "不明", "",
   "sn", "sd", "n", "d", "ao", "au", "w", "o", "u", "all"]

/-- Bit value of `RvCtgFlags::PRIMARY` (collect.rs, lines 170-181). -/
def RvCtgFlags.PRIMARY : ℕ := 0b000001

/-- Bit value of `RvCtgFlags::SECONDARY`. -/
def RvCtgFlags.SECONDARY : ℕ := 0b000010

/-- Bit value of `RvCtgFlags::QUASI`. -/
def RvCtgFlags.QUASI : ℕ := 0b000100

/-- Bit value of `RvCtgFlags::REGULAR`. -/
def RvCtgFlags.REGULAR : ℕ := 0b001000

/-- Bit value of `RvCtgFlags::OTHER`. -/
def RvCtgFlags.OTHER : ℕ := 0b010000

/-- Bit value of `RvCtgFlags::UNKNOWN`. -/
def RvCtgFlags.UNKNOWN : ℕ := 0b100000

/-- The full category flag set, `RvCtgFlags::all()`: the union of all six
defined flags. -/
def RvCtgFlags.allFlags : ℕ :=
  RvCtgFlags.PRIMARY ||| RvCtgFlags.SECONDARY ||| RvCtgFlags.QUASI |||
  RvCtgFlags.REGULAR ||| RvCtgFlags.OTHER ||| RvCtgFlags.UNKNOWN

/-- `RvCtgFlags::from_str` (collect.rs, lines 183-207). -/
def RvCtgFlags.fromStr (s : String) : Option ℕ :=
  if s = "一級河川" then some RvCtgFlags.PRIMARY
  else if s = "二級河川" then some RvCtgFlags.SECONDARY
  else if s = "準用河川" then some RvCtgFlags.QUASI
  else if s = "普通河川" then some RvCtgFlags.REGULAR
  else if s = "その他" then some RvCtgFlags.OTHER
  else if s = "不明" then some RvCtgFlags.UNKNOWN
  else if s = "" then some RvCtgFlags.UNKNOWN
  else if s = "p" then some RvCtgFlags.PRIMARY
  else if s = "s" then some RvCtgFlags.SECONDARY
  else if s = "q" then some RvCtgFlags.QUASI
  else if s = "r" then some RvCtgFlags.REGULAR
  else if s = "o" then some RvCtgFlags.OTHER
  else if s = "u" then some RvCtgFlags.UNKNOWN
  else if s = "all" then some RvCtgFlags.allFlags
  else none

/-- The closed set of tokens `RvCtgFlags::from_str` recognizes. -/
def rvCtgTokens : List String :=
  ["一級河川", "二級河川", "準用河川", "普通河川", "その他", "不明", "",
   "p", "s", "q", "r", "o", "u", "all"]

/-- One row of the persisted node file:
(NodeID, longitude, latitude, altitude, label). -/
def NodeRow : Type := ℕ × ℚ × ℚ × ℚ × String

/-- The four corner-marker rows built by `append_bounds` (collect.rs, lines
721-727); `ident` stands for `calc_hilbert_index` applied to two degree
coordinates. -/
def boundRows (ident : ℚ → ℚ → ℕ) (box : AABB) : List NodeRow :=
  [(ident box.max_long box.max_lat, box.min_long, box.min_lat, 0, "BoundNode"),
   (ident box.min_long box.max_lat, box.max_long, box.min_lat, 0, "BoundNode"),
   (ident box.max_long box.min_lat, box.min_long, box.max_lat, 0, "BoundNode"),
   (ident box.min_long box.min_lat, box.max_long, box.max_lat, 0, "BoundNode")]

/-- `append_bounds` (collect.rs, lines 707-747): append the four corner-marker
rows at the end of the node file. -/
def appendBounds (file : List NodeRow) (ident : ℚ → ℚ → ℕ) (box : AABB) : List NodeRow :=
  file ++ boundRows ident box

/-- A 2D Hilbert curve index of order `k` (first argument): the standard
xy-to-d conversion, processing bits from the most significant down, with the
quadrant rotation of the Hilbert curve. Modelled from the spec: this stands
for the external hilbert_index crate's `to_hilbert_index` used by
`calc_hilbert_index`. -/
def hilbertIndex : ℕ → ℕ → ℕ → ℕ
  | 0, _, _ => 0
  | k + 1, x, y =>
    let s := 2 ^ k
    let rx := x / s
    let ry := y / s
    let d := s * s * ((3 * rx) ^^^ ry)
    let x' := x % s
    let y' := y % s
    if ry = 0 then
      if rx = 1 then d + hilbertIndex k (s - 1 - y') (s - 1 - x')
      else d + hilbertIndex k y' x'
    else d + hilbertIndex k x' y'

/-- `calc_hilbert_index` (collect.rs, lines 351-355) after the pixel
quantization: order-26 Hilbert index of the pixel coordinate, truncated to
32 bits (`h as u32`). The quantization `ll2pixel` itself lives in the external
coordinate_transformer crate and is a parameter of the theorems. -/
def calc_hilbert_index (pixel : ℕ × ℕ) : ℕ :=
  hilbertIndex 26 pixel.1 pixel.2 % 2 ^ 32

/-- A concrete pixel quantizer used to witness the identity theorem. -/
def cellPixel (p : ℚ × ℚ) : ℕ × ℕ :=
  ((⌊p.1⌋).toNat / 2, (⌊p.2⌋).toNat / 2)

/-- The parent map of the tile pyramid: `(x, y) -> (x/2, y/2)`
(tilelocate.rs, line 201). -/
def parentTile (t : ℕ × ℕ) : ℕ × ℕ := (t.1 / 2, t.2 / 2)

/-- The tile obtained from `t` by walking the parent map `k` times. -/
def iterParent (k : ℕ) (t : ℕ × ℕ) : ℕ × ℕ := (t.1 / 2 ^ k, t.2 / 2 ^ k)

/-- The zoom-descending loop of `tile_locator` (tilelocate.rs, lines 197-218):
given the current zoom level (first argument) and the tile set at that zoom,
record a CHILD relation (parent at zoom-1, child at zoom) for every tile,
emit every distinct parent as a tile entity at zoom-1, and recurse on the
parent set until zoom 0. Returns (CHILD relations, tile entities). -/
def hierLoop : ℕ → List (ℕ × ℕ) → List (((ℕ × ℕ) × ℕ) × ((ℕ × ℕ) × ℕ)) × List ((ℕ × ℕ) × ℕ)
  | 0, _ => ([], [])
  | z + 1, tiles =>
    let rels := tiles.map fun t => ((parentTile t, z), (t, z + 1))
    let parents := (tiles.map parentTile).dedup
    let ents := parents.map fun p => (p, z)
    let rest := hierLoop z parents
    (rels ++ rest.1, ents ++ rest.2)

/-- The tile hierarchy built by `tile_locator`: the zoom-Z member tiles are
emitted as entities first (tilelocate.rs, lines 190-195), then the loop runs
from zoom Z down to 1. -/
def tileHierarchy (tiles : List (ℕ × ℕ)) (Z : ℕ) :
    List (((ℕ × ℕ) × ℕ) × ((ℕ × ℕ) × ℕ)) × List ((ℕ × ℕ) × ℕ) :=
  ((hierLoop Z tiles).1, tiles.map (fun t => (t, Z)) ++ (hierLoop Z tiles).2)

/-- The 2D cross product of `tile_locator`'s inner `cross_product`
(tilelocate.rs, lines 138-140): pixel coordinates are u32 in the source and
the arithmetic is done in i64; modelled exactly over ℤ. -/
def cross (p1 p2 p : ℕ × ℕ) : ℤ :=
  ((p2.1 : ℤ) - p1.1) * ((p.2 : ℤ) - p1.2) - ((p2.2 : ℤ) - p1.2) * ((p.1 : ℤ) - p1.1)

/-- The 4 corner pixel coordinates of tile (tx, ty)
(tilelocate.rs, lines 134-136). -/
def tileCorners (tx ty : ℕ) : List (ℕ × ℕ) :=
  [(tx * 256, ty * 256), ((tx + 1) * 256, ty * 256),
   (tx * 256, (ty + 1) * 256), ((tx + 1) * 256, (ty + 1) * 256)]

/-- The sign-consistent half-plane test of `tile_locator`
(tilelocate.rs, lines 143-149): all three cross products simultaneously >= 0
or simultaneously <= 0. -/
def cornerIn (v0 v1 v2 p : ℕ × ℕ) : Prop :=
  (0 ≤ cross v0 v1 p ∧ 0 ≤ cross v1 v2 p ∧ 0 ≤ cross v2 v0 p) ∨
  (cross v0 v1 p ≤ 0 ∧ cross v1 v2 p ≤ 0 ∧ cross v2 v0 p ≤ 0)

instance (v0 v1 v2 p : ℕ × ℕ) : Decidable (cornerIn v0 v1 v2 p) := by
  unfold cornerIn; infer_instance

/-- "any of the tile's 4 corners passes the test" (tilelocate.rs, line 143). -/
def isContained (v0 v1 v2 : ℕ × ℕ) (tx ty : ℕ) : Prop :=
  ∃ p ∈ tileCorners tx ty, cornerIn v0 v1 v2 p

/-- u32::MAX, the start value of the source's min-fold. -/
def u32Max : ℕ := 2 ^ 32 - 1

/-- Maximum pixel x over the face's vertices, folded from 0
(tilelocate.rs, line 119). -/
def triMaxX (v0 v1 v2 : ℕ × ℕ) : ℕ := Nat.max (Nat.max (Nat.max 0 v0.1) v1.1) v2.1

/-- Minimum pixel x over the face's vertices, folded from u32::MAX
(tilelocate.rs, line 120). -/
def triMinX (v0 v1 v2 : ℕ × ℕ) : ℕ := Nat.min (Nat.min (Nat.min u32Max v0.1) v1.1) v2.1

/-- Maximum pixel y over the face's vertices. -/
def triMaxY (v0 v1 v2 : ℕ × ℕ) : ℕ := Nat.max (Nat.max (Nat.max 0 v0.2) v1.2) v2.2

/-- Minimum pixel y over the face's vertices. -/
def triMinY (v0 v1 v2 : ℕ × ℕ) : ℕ := Nat.min (Nat.min (Nat.min u32Max v0.2) v1.2) v2.2

/-- The candidate tile range scanned for a face: the tile-coordinate AABB
derived from the pixel bounding box (tilelocate.rs, lines 125-131). -/
def candidate (v0 v1 v2 : ℕ × ℕ) (tx ty : ℕ) : Prop :=
  triMinX v0 v1 v2 / 256 ≤ tx ∧ tx ≤ triMaxX v0 v1 v2 / 256 ∧
  triMinY v0 v1 v2 / 256 ≤ ty ∧ ty ≤ triMaxY v0 v1 v2 / 256

/-- A tile is reported as a member of a face exactly when it lies in the
scanned candidate range and the corner test succeeds
(tilelocate.rs, lines 129-156). -/
def reported (v0 v1 v2 : ℕ × ℕ) (tx ty : ℕ) : Prop :=
  candidate v0 v1 v2 tx ty ∧ isContained v0 v1 v2 tx ty

/-- `haversine_distance` (collect.rs, lines 358-365): the mathematical
formula the source computes in f64, modelled over ℝ. Inputs are radian
coordinates (long1, lat1, long2, lat2). -/
noncomputable def haversine_distance (long1 lat1 long2 lat2 : ℝ) : ℝ :=
  let d_long := long2 - long1
  let d_lat := lat2 - lat1
  let a := Real.sin (d_lat / 2) ^ 2
  let b := Real.cos lat1 * Real.cos lat2 * Real.sin (d_long / 2) ^ 2
  let r : ℝ := 6371
  2 * r * Real.arcsin (Real.sqrt (a + b))

/-- Euclidean dot product on ℝ³ (used to relate the haversine formula to the
central angle between points on the unit sphere). -/
def dot3 (u v : ℝ × ℝ × ℝ) : ℝ :=
  u.1 * v.1 + u.2.1 * v.2.1 + u.2.2 * v.2.2

/-- Scalar triple product (determinant) of three vectors in ℝ³. -/
def triple (a b c : ℝ × ℝ × ℝ) : ℝ :=
  a.1 * (b.2.1 * c.2.2 - b.2.2 * c.2.1) - a.2.1 * (b.1 * c.2.2 - b.2.2 * c.1) +
    a.2.2 * (b.1 * c.2.1 - b.2.1 * c.1)

/-- The unit-sphere embedding of a (longitude, latitude) pair in radians. -/
noncomputable def sphPoint (long lat : ℝ) : ℝ × ℝ × ℝ :=
  (Real.cos lat * Real.cos long, Real.cos lat * Real.sin long, Real.sin lat)

/-- Rust's `str::split` on a single separator character, over char lists:
always returns at least one (possibly empty) field. -/
def splitOnChar (sep : Char) : List Char → List (List Char)
  | [] => [[]]
  | c :: rest =>
    if c = sep then [] :: splitOnChar sep rest
    else
      match splitOnChar sep rest with
      | [] => [[c]]
      | f :: fs => (c :: f) :: fs

/-- The reader's character filter (delaunay.rs line 62-63, tilelocate.rs
lines 63-64): keep ascii digits and the dot. -/
def keepChar (c : Char) : Bool := c.isDigit || c = '.'

/-- The ascii digit character for a digit value. -/
def digitChar (d : ℕ) : Char := Char.ofNat (48 + d)

/-- Numeric value of an ascii digit character. -/
def digitVal (c : Char) : ℕ := c.toNat - 48

/-- Value of a big-endian ascii digit string (the accumulation a decimal
integer parser performs). -/
def digitsVal (l : List Char) : ℕ := l.foldl (fun acc c => 10 * acc + digitVal c) 0

/-- Value of a little-endian digit list. -/
def valLE : List ℕ → ℕ
  | [] => 0
  | d :: ds => d + 10 * valLE ds

/-- Little-endian decimal digits of `n`, with explicit fuel so that the
definition is structurally recursive. -/
def natDigitsRevAux : ℕ → ℕ → List ℕ
  | _, 0 => []
  | 0, _ + 1 => []
  | fuel + 1, n + 1 => ((n + 1) % 10) :: natDigitsRevAux fuel ((n + 1) / 10)

/-- Little-endian decimal digits of `n`. -/
def natDigitsRev (n : ℕ) : List ℕ := natDigitsRevAux n n

/-- Rust's `u32::to_string`: decimal rendering of a natural number. -/
def natToString (n : ℕ) : List Char :=
  if n = 0 then ['0'] else (natDigitsRev n).reverse.map digitChar

/-- Rust's `str::parse::<u32>` on a field: all-digit, non-empty, below 2^32. -/
def parseU32 (l : List Char) : Option ℕ :=
  if l ≠ [] ∧ l.all Char.isDigit = true ∧ digitsVal l < 2 ^ 32 then some (digitsVal l)
  else none

/-- Parse an unsigned decimal string into an exact decimal number
(mantissa, number of decimal places); the denoted value is
mantissa / 10^places (see `decValue`). Models `str::parse::<f64>` on the
digits-and-dot strings this pipeline produces and filters. -/
def parseDec (l : List Char) : Option (ℤ × ℕ) :=
  match splitOnChar '.' l with
  | [a] =>
    if a ≠ [] ∧ a.all Char.isDigit = true then some ((digitsVal a : ℤ), 0) else none
  | [a, b] =>
    if a ++ b ≠ [] ∧ a.all Char.isDigit = true ∧ b.all Char.isDigit = true then
      some (((digitsVal a : ℤ) * 10 ^ b.length + digitsVal b, b.length))
    else none
  | _ => none

/-- Signed decimal parse: a leading minus negates the mantissa. -/
def parseF64 (l : List Char) : Option (ℤ × ℕ) :=
  match l with
  | [] => none
  | c :: rest => if c = '-' then (parseDec rest).map (fun d => (-d.1, d.2)) else parseDec l

/-- The rational value denoted by an exact decimal (mantissa, places) pair. -/
def decValue (d : ℤ × ℕ) : ℚ := (d.1 : ℚ) / 10 ^ d.2

/-- The characters before the longitude digits in a node row's location
field. -/
def locPrefix : List Char := "\"\x7blongitude:".toList

/-- The characters between the longitude and latitude digits. -/
def latMid : List Char := "latitude:".toList

/-- The characters closing the location field. -/
def locSuffix : List Char := "\x7d\"".toList

/-- The RiverNode label field. -/
def riverLabel : List Char := "RiverNode".toList

/-- The location column written by `write_nodes`
(collect.rs, line 608): a quoted point literal containing a comma. -/
def locationField (L B : List Char) : List Char :=
  locPrefix ++ L ++ [','] ++ latMid ++ B ++ locSuffix

/-- One CSV row written by `write_nodes` (collect.rs, lines 605-619), with the
longitude, latitude and altitude fields given by their decimal renderings
`L`, `B`, `A` (Rust renders the f64/f32 values with `Display`). -/
def writeNodeRow (id : ℕ) (L B A : List Char) : List Char :=
  natToString id ++ [','] ++ locationField L B ++ [','] ++ A ++ [','] ++ riverLabel

/-- One row parsed by `read_nodes` (delaunay.rs lines 51-68, tilelocate.rs
lines 52-69, both identical): reject empty lines, split the raw line on
commas, parse field 0 as u32, and parse fields 1 and 2 after keeping only
digit and dot characters. Panics of the source are modelled as `none`. -/
def readNodeRow (line : List Char) : Option (ℕ × (ℤ × ℕ) × (ℤ × ℕ)) :=
  if line = [] then none
  else
    match splitOnChar ',' line with
    | f0 :: f1 :: f2 :: _ =>
      match parseU32 f0, parseF64 (f1.filter keepChar), parseF64 (f2.filter keepChar) with
      | some i, some lo, some la => some (i, lo, la)
      | _, _, _ => none
    | _ => none

theorem decodePixel_eq_spec (r g b : ℕ) : decodePixel r g b = specElevation r g b := by
  simp only [decodePixel, specElevation]
  have hx : (2 ^ 16 * (r : ℚ) + 2 ^ 8 * g + b) = ((65536 * r + 256 * g + b : ℕ) : ℚ) := by
    push_cast; ring
  rw [hx]
  rcases lt_trichotomy (65536 * r + 256 * g + b) (2 ^ 23) with h | h | h
  · have hq : ((65536 * r + 256 * g + b : ℕ) : ℚ) < 2 ^ 23 := by exact_mod_cast h
    rw [if_pos hq, if_pos h]
  · rw [h]
    push_cast
    norm_num
  · have hq : ((65536 * r + 256 * g + b : ℕ) : ℚ) > 2 ^ 23 := by exact_mod_cast h
    have hq1 : ¬ ((65536 * r + 256 * g + b : ℕ) : ℚ) < 2 ^ 23 := by linarith
    have h1 : ¬ (65536 * r + 256 * g + b < 2 ^ 23) := by omega
    rw [if_neg hq1, if_neg h1, if_pos hq, if_pos h]

/-- C1: every entry of the AltitudeGrid produced by the decode step equals the
spec's formula: `x*0.01` if `x < 2^23`, `(x - 2^24)*0.01` if `x > 2^23`, and
`0` if `x = 2^23`, where `x = 65536*R + 256*G + B` for the RGB pixel at the
same position. -/
theorem decode_grid_matches_spec (pixels : List (ℕ × ℕ × ℕ)) (i : ℕ) (r g b : ℕ)
    (hp : pixels[i]? = some (r, g, b))
    (hr : r ≤ 255) (hg : g ≤ 255) (hb : b ≤ 255) :
    (decodeTile pixels)[i]? = some (specElevation r g b) := by
  simp [decodeTile, List.getElem?_map, hp, decodePixel_eq_spec]

theorem decode_grid_matches_spec_witness :
    (decodeTile [(1, 2, 3)])[0]? = some (specElevation 1 2 3) :=
  decode_grid_matches_spec [(1, 2, 3)] 0 1 2 3 rfl (by decide) (by decide) (by decide)

/-- C3: the default AABB has its min/max values swapped (min_long > max_long
and min_lat > max_lat), violating the invariant satisfied by every AABB that
`AABB::from_str` successfully parses (the parse errors out whenever
`min_lat >= max_lat` or `min_long >= max_long`). -/
theorem aabb_default_violates_parse_invariant (a b c d : ℚ) (r : AABB)
    (h : AABB.fromStr a b c d = some r) :
    (AABB.default.max_long < AABB.default.min_long ∧
      AABB.default.max_lat < AABB.default.min_lat) ∧
    (r.min_long < r.max_long ∧ r.min_lat < r.max_lat) := by
  refine ⟨⟨by norm_num [AABB.default], by norm_num [AABB.default]⟩, ?_⟩
  unfold AABB.fromStr at h
  split_ifs at h with hc
  push_neg at hc
  cases h
  exact ⟨hc.2, hc.1⟩

theorem aabb_default_violates_parse_invariant_witness :
    (AABB.default.max_long < AABB.default.min_long ∧
      AABB.default.max_lat < AABB.default.min_lat) ∧
    ((0 : ℚ) < 1 ∧ (0 : ℚ) < 1) := by
  have h := aabb_default_violates_parse_invariant 0 1 0 1 ⟨0, 1, 0, 1⟩ (by decide)
  exact h

/-- C10: the local grid index `(py % 256) * 256 + px % 256` computed by
`collect_nodes` is always below 65536, so on any grid with exactly 256*256
entries (such as the all-zero fallback grid) the elevation lookup is total. -/
theorem local_index_in_bounds (grid : List ℚ) (px py : ℕ)
    (hlen : grid.length = 256 * 256) :
    (py % 256) * 256 + px % 256 < 65536 ∧
    (lookupAltitude grid px py).isSome = true ∧
    fallbackGrid.length = 256 * 256 := by
  have hfb : fallbackGrid.length = 256 * 256 := by
    rw [fallbackGrid, List.length_replicate]
  refine ⟨by omega, ?_, hfb⟩
  have hidx : (py % 256) * 256 + px % 256 < grid.length := by rw [hlen]; omega
  rw [lookupAltitude, List.getElem?_eq_getElem hidx]
  rfl

theorem local_index_in_bounds_witness :
    (777 % 256) * 256 + 300 % 256 < 65536 ∧
    (lookupAltitude fallbackGrid 300 777).isSome = true ∧
    fallbackGrid.length = 256 * 256 :=
  local_index_in_bounds fallbackGrid 300 777
    (by rw [fallbackGrid, List.length_replicate])

theorem rvRclFromStr_none_of_not_mem (s : String) (hs : s ∉ rvRclTokens) :
    RvRclFlags.fromStr s = none := by
  have h1 : ¬ s = "細河川（通常部）" := fun h => hs (by rw [h]; decide)
  have h2 : ¬ s = "細河川（枯れ川部）" := fun h => hs (by rw [h]; decide)
  have h3 : ¬ s = "河川中心線（通常部）" := fun h => hs (by rw [h]; decide)
  have h4 : ¬ s = "河川中心線（枯れ川部）" := fun h => hs (by rw [h]; decide)
  have h5 : ¬ s = "人工水路（空間）" := fun h => hs (by rw [h]; decide)
  have h6 : ¬ s = "人工水路（地下）" := fun h => hs (by rw [h]; decide)
  have h7 : ¬ s = "用水路" := fun h => hs (by rw [h]; decide)
  have h8 : ¬ s = "その他" := fun h => hs (by rw [h]; decide)
  have h9 : ¬ s = "不明" := fun h => hs (by rw [h]; decide)
  have h10 : ¬ s = "" := fun h => hs (by rw [h]; decide)
  have h11 : ¬ s = "sn" := fun h => hs (by rw [h]; decide)
  have h12 : ¬ s = "sd" := fun h => hs (by rw [h]; decide)
  have h13 : ¬ s = "n" := fun h => hs (by rw [h]; decide)
  have h14 : ¬ s = "d" := fun h => hs (by rw [h]; decide)
  have h15 : ¬ s = "ao" := fun h => hs (by rw [h]; decide)
  have h16 : ¬ s = "au" := fun h => hs (by rw [h]; decide)
  have h17 : ¬ s = "w" := fun h => hs (by rw [h]; decide)
  have h18 : ¬ s = "o" := fun h => hs (by rw [h]; decide)
  have h19 : ¬ s = "u" := fun h => hs (by rw [h]; decide)
  have h20 : ¬ s = "all" := fun h => hs (by rw [h]; decide)
  unfold RvRclFlags.fromStr
  rw [if_neg h1, if_neg h2, if_neg h3, if_neg h4, if_neg h5,
    if_neg h6, if_neg h7, if_neg h8, if_neg h9, if_neg h10, if_neg h11, if_neg h12,
    if_neg h13, if_neg h14, if_neg h15, if_neg h16, if_neg h17, if_neg h18,
    if_neg h19, if_neg h20]

theorem rvCtgFromStr_none_of_not_mem (s : String) (hs : s ∉ rvCtgTokens) :
    RvCtgFlags.fromStr s = none := by
  have h1 : ¬ s = "一級河川" := fun h => hs (by rw [h]; decide)
  have h2 : ¬ s = "二級河川" := fun h => hs (by rw [h]; decide)
  have h3 : ¬ s = "準用河川" := fun h => hs (by rw [h]; decide)
  have h4 : ¬ s = "普通河川" := fun h => hs (by rw [h]; decide)
  have h5 : ¬ s = "その他" := fun h => hs (by rw [h]; decide)
  have h6 : ¬ s = "不明" := fun h => hs (by rw [h]; decide)
  have h7 : ¬ s = "" := fun h => hs (by rw [h]; decide)
  have h8 : ¬ s = "p" := fun h => hs (by rw [h]; decide)
  have h9 : ¬ s = "s" := fun h => hs (by rw [h]; decide)
  have h10 : ¬ s = "q" := fun h => hs (by rw [h]; decide)
  have h11 : ¬ s = "r" := fun h => hs (by rw [h]; decide)
  have h12 : ¬ s = "o" := fun h => hs (by rw [h]; decide)
  have h13 : ¬ s = "u" := fun h => hs (by rw [h]; decide)
  unfold RvCtgFlags.fromStr
  rw [if_neg h1, if_neg h2, if_neg h3, if_neg h4, if_neg h5,
    if_neg h6, if_neg h7, if_neg h8, if_neg h9, if_neg h10, if_neg h11, if_neg h12,
    if_neg h13]
  have h14 : ¬ s = "all" := fun h => hs (by rw [h]; decide)
  rw [if_neg h14]

/-- C2 counterexample: the token "その他" does not parse to the UNKNOWN flag
(for either flag type) — it parses to the OTHER flag. -/
theorem flag_sonota_not_unknown :
    RvRclFlags.fromStr "その他" ≠ some RvRclFlags.UNKNOWN ∧
    RvCtgFlags.fromStr "その他" ≠ some RvCtgFlags.UNKNOWN := by
  constructor <;> decide

/-- C2 (amended): for both flag types, "all" parses to the full flag set, the
empty string and "不明" parse to the UNKNOWN flag, "その他" parses to the
OTHER flag, and any token outside the recognized closed set of aliases is an
error. -/
theorem flag_parsing (s t : String) (hs : s ∉ rvRclTokens) (ht : t ∉ rvCtgTokens) :
    RvRclFlags.fromStr "all" = some RvRclFlags.allFlags ∧
    RvCtgFlags.fromStr "all" = some RvCtgFlags.allFlags ∧
    RvRclFlags.fromStr "" = some RvRclFlags.UNKNOWN ∧
    RvCtgFlags.fromStr "" = some RvCtgFlags.UNKNOWN ∧
    RvRclFlags.fromStr "不明" = some RvRclFlags.UNKNOWN ∧
    RvCtgFlags.fromStr "不明" = some RvCtgFlags.UNKNOWN ∧
    RvRclFlags.fromStr "その他" = some RvRclFlags.OTHER ∧
    RvCtgFlags.fromStr "その他" = some RvCtgFlags.OTHER ∧
    RvRclFlags.fromStr s = none ∧
    RvCtgFlags.fromStr t = none :=
  ⟨by decide, by decide, by decide, by decide, by decide, by decide, by decide,
   by decide, rvRclFromStr_none_of_not_mem s hs, rvCtgFromStr_none_of_not_mem t ht⟩

theorem flag_parsing_witness :
    RvRclFlags.fromStr "all" = some RvRclFlags.allFlags ∧
    RvCtgFlags.fromStr "all" = some RvCtgFlags.allFlags ∧
    RvRclFlags.fromStr "" = some RvRclFlags.UNKNOWN ∧
    RvCtgFlags.fromStr "" = some RvCtgFlags.UNKNOWN ∧
    RvRclFlags.fromStr "不明" = some RvRclFlags.UNKNOWN ∧
    RvCtgFlags.fromStr "不明" = some RvCtgFlags.UNKNOWN ∧
    RvRclFlags.fromStr "その他" = some RvRclFlags.OTHER ∧
    RvCtgFlags.fromStr "その他" = some RvCtgFlags.OTHER ∧
    RvRclFlags.fromStr "xyz" = none ∧
    RvCtgFlags.fromStr "xyz" = none :=
  flag_parsing "xyz" "xyz" (by decide) (by decide)

/-- C4: the NodeID is a pure function of the quantized pixel cell: whatever
pixel mapper the external crate provides, two points it sends to the same
zoom-18 pixel cell receive the same 32-bit Hilbert NodeID. -/
theorem same_pixel_cell_same_node_id (ll2pixel : ℚ × ℚ → ℕ × ℕ) (p1 p2 : ℚ × ℚ)
    (h : ll2pixel p1 = ll2pixel p2) :
    calc_hilbert_index (ll2pixel p1) = calc_hilbert_index (ll2pixel p2) :=
  congrArg calc_hilbert_index h

theorem same_pixel_cell_same_node_id_witness :
    calc_hilbert_index (cellPixel (2, 3)) = calc_hilbert_index (cellPixel (3, 2)) :=
  same_pixel_cell_same_node_id cellPixel (2, 3) (3, 2) (by decide)

/-- C7: `append_bounds` appends exactly 4 rows at the end of the node file,
all labelled BoundNode with altitude 0, and the marker placed at each corner
carries the NodeID computed from the opposite corner: the row at
(min_long, min_lat) carries `ident max_long max_lat`, and correspondingly for
the other three corners. -/
theorem append_bounds_spec (file : List NodeRow) (ident : ℚ → ℚ → ℕ) (box : AABB) :
    (appendBounds file ident box).length = file.length + 4 ∧
    (appendBounds file ident box).take file.length = file ∧
    (appendBounds file ident box).drop file.length =
      [(ident box.max_long box.max_lat, box.min_long, box.min_lat, 0, "BoundNode"),
       (ident box.min_long box.max_lat, box.max_long, box.min_lat, 0, "BoundNode"),
       (ident box.max_long box.min_lat, box.min_long, box.max_lat, 0, "BoundNode"),
       (ident box.min_long box.min_lat, box.max_long, box.max_lat, 0, "BoundNode")] ∧
    ∀ row ∈ (appendBounds file ident box).drop file.length,
      row.2.2.2.1 = 0 ∧ row.2.2.2.2 = "BoundNode" := by
  have hdrop : (appendBounds file ident box).drop file.length = boundRows ident box := by
    simp [appendBounds]
  have htake : (appendBounds file ident box).take file.length = file := by
    simp [appendBounds]
  refine ⟨by simp [appendBounds, boundRows], htake, by rw [hdrop]; rfl, ?_⟩
  rw [hdrop]
  intro row hrow
  simp only [boundRows, List.mem_cons, List.mem_singleton, List.not_mem_nil, or_false] at hrow
  rcases hrow with h | h | h | h <;> subst h <;> exact ⟨rfl, rfl⟩

theorem iterParent_zero (t : ℕ × ℕ) : iterParent 0 t = t := by
  simp [iterParent]

theorem iterParent_one (t : ℕ × ℕ) : iterParent 1 t = parentTile t := by
  simp [iterParent, parentTile]

theorem iterParent_parentTile (k : ℕ) (t : ℕ × ℕ) :
    iterParent k (parentTile t) = iterParent (k + 1) t := by
  unfold iterParent parentTile
  simp only [Nat.div_div_eq_div_mul]
  rw [pow_succ, Nat.mul_comm 2 (2 ^ k)]

theorem parentTile_iterParent (k : ℕ) (t : ℕ × ℕ) :
    parentTile (iterParent k t) = iterParent (k + 1) t := by
  unfold iterParent parentTile
  simp only [Nat.div_div_eq_div_mul]
  rw [pow_succ]

theorem iterate_parentTile (k : ℕ) (t : ℕ × ℕ) : parentTile^[k] t = iterParent k t := by
  induction k with
  | zero => simp [iterParent]
  | succ n ih => rw [Function.iterate_succ_apply', ih, parentTile_iterParent]

theorem hierLoop_mem (z : ℕ) : ∀ (tiles : List (ℕ × ℕ)) (t : ℕ × ℕ), t ∈ tiles →
    (∀ k, k < z →
      ((iterParent (k + 1) t, z - (k + 1)), (iterParent k t, z - k)) ∈ (hierLoop z tiles).1) ∧
    (∀ k, 1 ≤ k → k ≤ z → (iterParent k t, z - k) ∈ (hierLoop z tiles).2) := by
  induction z with
  | zero =>
    intro tiles t ht
    exact ⟨fun k hk => absurd hk (Nat.not_lt_zero k), fun k hk1 hk2 => by omega⟩
  | succ z ih =>
    intro tiles t ht
    have hpar : parentTile t ∈ (tiles.map parentTile).dedup :=
      List.mem_dedup.mpr (List.mem_map_of_mem _ ht)
    have ihp := ih ((tiles.map parentTile).dedup) (parentTile t) hpar
    simp only [hierLoop]
    constructor
    · intro k hk
      cases k with
      | zero =>
        apply List.mem_append_left
        rw [iterParent_zero, iterParent_one]
        simpa using List.mem_map_of_mem (fun t => ((parentTile t, z), (t, z + 1))) ht
      | succ j =>
        apply List.mem_append_right
        have hmem := ihp.1 j (by omega)
        rw [iterParent_parentTile, iterParent_parentTile] at hmem
        have e1 : z + 1 - (j + 1 + 1) = z - (j + 1) := by omega
        have e2 : z + 1 - (j + 1) = z - j := by omega
        rw [e1, e2]
        exact hmem
    · intro k hk1 hk2
      cases k with
      | zero => omega
      | succ j =>
        cases j with
        | zero =>
          apply List.mem_append_left
          rw [iterParent_one]
          exact List.mem_map_of_mem (fun p => (p, z)) hpar
        | succ i =>
          apply List.mem_append_right
          have hmem := ihp.2 (i + 1) (by omega) (by omega)
          rw [iterParent_parentTile] at hmem
          have e1 : z + 1 - (i + 1 + 1) = z - (i + 1) := by omega
          rw [e1]
          exact hmem

/-- C6: for every tile `t` in the zoom-Z membership set (a genuine zoom-Z
tile, i.e. with coordinates below 2^Z), walking the parent map exactly Z
times reaches tile (0,0) at zoom 0; a CHILD relation
(parent at zoom Z-k-1, child at zoom Z-k) is recorded at every step of that
chain; and every ancestor of `t` at every visited zoom level is emitted as a
tile entity. -/
theorem tile_hierarchy_complete (tiles : List (ℕ × ℕ)) (Z : ℕ) (t : ℕ × ℕ)
    (ht : t ∈ tiles) (hx : t.1 < 2 ^ Z) (hy : t.2 < 2 ^ Z) :
    parentTile^[Z] t = (0, 0) ∧
    (∀ k, k < Z →
      ((iterParent (k + 1) t, Z - (k + 1)), (iterParent k t, Z - k)) ∈ (tileHierarchy tiles Z).1) ∧
    (∀ k, k ≤ Z → (iterParent k t, Z - k) ∈ (tileHierarchy tiles Z).2) := by
  have hloop := hierLoop_mem Z tiles t ht
  refine ⟨?_, fun k hk => hloop.1 k hk, ?_⟩
  · rw [iterate_parentTile]
    unfold iterParent
    rw [Nat.div_eq_of_lt hx, Nat.div_eq_of_lt hy]
  · intro k hk
    cases k with
    | zero =>
      apply List.mem_append_left
      rw [iterParent_zero]
      simpa using List.mem_map_of_mem (fun t => (t, Z)) ht
    | succ j =>
      apply List.mem_append_right
      exact hloop.2 (j + 1) (by omega) hk

theorem cross_sum (v0 v1 v2 p : ℕ × ℕ) :
    cross v0 v1 p + cross v1 v2 p + cross v2 v0 p = cross v0 v1 v2 := by
  unfold cross; ring

theorem cross_bary_x (v0 v1 v2 p : ℕ × ℕ) :
    cross v0 v1 v2 * (p.1 : ℤ) =
      cross v1 v2 p * v0.1 + cross v2 v0 p * v1.1 + cross v0 v1 p * v2.1 := by
  unfold cross; ring

theorem cross_bary_y (v0 v1 v2 p : ℕ × ℕ) :
    cross v0 v1 v2 * (p.2 : ℤ) =
      cross v1 v2 p * v0.2 + cross v2 v0 p * v1.2 + cross v0 v1 p * v2.2 := by
  unfold cross; ring

theorem convex_bound (D c1 c2 c3 x w0 w1 w2 L U : ℤ)
    (hsum : c1 + c2 + c3 = D)
    (heq : D * x = c2 * w0 + c3 * w1 + c1 * w2)
    (hD : 0 < D) (h1 : 0 ≤ c1) (h2 : 0 ≤ c2) (h3 : 0 ≤ c3)
    (hw0 : L ≤ w0 ∧ w0 ≤ U) (hw1 : L ≤ w1 ∧ w1 ≤ U) (hw2 : L ≤ w2 ∧ w2 ≤ U) :
    L ≤ x ∧ x ≤ U := by
  constructor
  · have k0 : c2 * L ≤ c2 * w0 := mul_le_mul_of_nonneg_left hw0.1 h2
    have k1 : c3 * L ≤ c3 * w1 := mul_le_mul_of_nonneg_left hw1.1 h3
    have k2 : c1 * L ≤ c1 * w2 := mul_le_mul_of_nonneg_left hw2.1 h1
    have hDL : D * L = c2 * L + c3 * L + c1 * L := by rw [← hsum]; ring
    have hle : D * L ≤ D * x := by linarith
    exact le_of_mul_le_mul_left hle hD
  · have k0 : c2 * w0 ≤ c2 * U := mul_le_mul_of_nonneg_left hw0.2 h2
    have k1 : c3 * w1 ≤ c3 * U := mul_le_mul_of_nonneg_left hw1.2 h3
    have k2 : c1 * w2 ≤ c1 * U := mul_le_mul_of_nonneg_left hw2.2 h1
    have hDU : D * U = c2 * U + c3 * U + c1 * U := by rw [← hsum]; ring
    have hle : D * x ≤ D * U := by linarith
    exact le_of_mul_le_mul_left hle hD

theorem cornerIn_bbox (v0 v1 v2 p : ℕ × ℕ) (hD : cross v0 v1 v2 ≠ 0)
    (hp : cornerIn v0 v1 v2 p) :
    triMinX v0 v1 v2 ≤ p.1 ∧ p.1 ≤ triMaxX v0 v1 v2 ∧
    triMinY v0 v1 v2 ≤ p.2 ∧ p.2 ≤ triMaxY v0 v1 v2 := by
  have hminx0 : triMinX v0 v1 v2 ≤ v0.1 := by
    unfold triMinX
    exact le_trans (le_trans (Nat.min_le_left _ _) (Nat.min_le_left _ _)) (Nat.min_le_right _ _)
  have hminx1 : triMinX v0 v1 v2 ≤ v1.1 := by
    unfold triMinX
    exact le_trans (Nat.min_le_left _ _) (Nat.min_le_right _ _)
  have hminx2 : triMinX v0 v1 v2 ≤ v2.1 := by
    unfold triMinX
    exact Nat.min_le_right _ _
  have hmaxx0 : v0.1 ≤ triMaxX v0 v1 v2 := by
    unfold triMaxX
    exact le_trans (le_trans (Nat.le_max_right _ _) (Nat.le_max_left _ _)) (Nat.le_max_left _ _)
  have hmaxx1 : v1.1 ≤ triMaxX v0 v1 v2 := by
    unfold triMaxX
    exact le_trans (Nat.le_max_right _ _) (Nat.le_max_left _ _)
  have hmaxx2 : v2.1 ≤ triMaxX v0 v1 v2 := by
    unfold triMaxX
    exact Nat.le_max_right _ _
  have hminy0 : triMinY v0 v1 v2 ≤ v0.2 := by
    unfold triMinY
    exact le_trans (le_trans (Nat.min_le_left _ _) (Nat.min_le_left _ _)) (Nat.min_le_right _ _)
  have hminy1 : triMinY v0 v1 v2 ≤ v1.2 := by
    unfold triMinY
    exact le_trans (Nat.min_le_left _ _) (Nat.min_le_right _ _)
  have hminy2 : triMinY v0 v1 v2 ≤ v2.2 := by
    unfold triMinY
    exact Nat.min_le_right _ _
  have hmaxy0 : v0.2 ≤ triMaxY v0 v1 v2 := by
    unfold triMaxY
    exact le_trans (le_trans (Nat.le_max_right _ _) (Nat.le_max_left _ _)) (Nat.le_max_left _ _)
  have hmaxy1 : v1.2 ≤ triMaxY v0 v1 v2 := by
    unfold triMaxY
    exact le_trans (Nat.le_max_right _ _) (Nat.le_max_left _ _)
  have hmaxy2 : v2.2 ≤ triMaxY v0 v1 v2 := by
    unfold triMaxY
    exact Nat.le_max_right _ _
  have hsum := cross_sum v0 v1 v2 p
  have hbx := cross_bary_x v0 v1 v2 p
  have hby := cross_bary_y v0 v1 v2 p
  rcases hp with ⟨ha, hb, hc⟩ | ⟨ha, hb, hc⟩
  · have hDpos : 0 < cross v0 v1 v2 := by
      have : 0 ≤ cross v0 v1 v2 := by linarith
      exact this.lt_of_ne (Ne.symm hD)
    have hx := convex_bound (cross v0 v1 v2) (cross v0 v1 p) (cross v1 v2 p)
      (cross v2 v0 p) (p.1 : ℤ) (v0.1 : ℤ) (v1.1 : ℤ) (v2.1 : ℤ)
      (triMinX v0 v1 v2 : ℤ) (triMaxX v0 v1 v2 : ℤ) hsum hbx hDpos ha hb hc
      ⟨by exact_mod_cast hminx0, by exact_mod_cast hmaxx0⟩
      ⟨by exact_mod_cast hminx1, by exact_mod_cast hmaxx1⟩
      ⟨by exact_mod_cast hminx2, by exact_mod_cast hmaxx2⟩
    have hy := convex_bound (cross v0 v1 v2) (cross v0 v1 p) (cross v1 v2 p)
      (cross v2 v0 p) (p.2 : ℤ) (v0.2 : ℤ) (v1.2 : ℤ) (v2.2 : ℤ)
      (triMinY v0 v1 v2 : ℤ) (triMaxY v0 v1 v2 : ℤ) hsum hby hDpos ha hb hc
      ⟨by exact_mod_cast hminy0, by exact_mod_cast hmaxy0⟩
      ⟨by exact_mod_cast hminy1, by exact_mod_cast hmaxy1⟩
      ⟨by exact_mod_cast hminy2, by exact_mod_cast hmaxy2⟩
    exact ⟨by exact_mod_cast hx.1, by exact_mod_cast hx.2,
           by exact_mod_cast hy.1, by exact_mod_cast hy.2⟩
  · have hDneg : cross v0 v1 v2 < 0 := by
      have hle : cross v0 v1 v2 ≤ 0 := by linarith
      exact hle.lt_of_ne hD
    have hsum' : -cross v0 v1 p + -cross v1 v2 p + -cross v2 v0 p = -cross v0 v1 v2 := by
      linarith
    have hbx' : -cross v0 v1 v2 * (p.1 : ℤ) =
        -cross v1 v2 p * v0.1 + -cross v2 v0 p * v1.1 + -cross v0 v1 p * v2.1 := by
      linear_combination -hbx
    have hby' : -cross v0 v1 v2 * (p.2 : ℤ) =
        -cross v1 v2 p * v0.2 + -cross v2 v0 p * v1.2 + -cross v0 v1 p * v2.2 := by
      linear_combination -hby
    have hx := convex_bound (-cross v0 v1 v2) (-cross v0 v1 p) (-cross v1 v2 p)
      (-cross v2 v0 p) (p.1 : ℤ) (v0.1 : ℤ) (v1.1 : ℤ) (v2.1 : ℤ)
      (triMinX v0 v1 v2 : ℤ) (triMaxX v0 v1 v2 : ℤ) hsum' hbx' (by linarith)
      (by linarith) (by linarith) (by linarith)
      ⟨by exact_mod_cast hminx0, by exact_mod_cast hmaxx0⟩
      ⟨by exact_mod_cast hminx1, by exact_mod_cast hmaxx1⟩
      ⟨by exact_mod_cast hminx2, by exact_mod_cast hmaxx2⟩
    have hy := convex_bound (-cross v0 v1 v2) (-cross v0 v1 p) (-cross v1 v2 p)
      (-cross v2 v0 p) (p.2 : ℤ) (v0.2 : ℤ) (v1.2 : ℤ) (v2.2 : ℤ)
      (triMinY v0 v1 v2 : ℤ) (triMaxY v0 v1 v2 : ℤ) hsum' hby' (by linarith)
      (by linarith) (by linarith) (by linarith)
      ⟨by exact_mod_cast hminy0, by exact_mod_cast hmaxy0⟩
      ⟨by exact_mod_cast hminy1, by exact_mod_cast hmaxy1⟩
      ⟨by exact_mod_cast hminy2, by exact_mod_cast hmaxy2⟩
    exact ⟨by exact_mod_cast hx.1, by exact_mod_cast hx.2,
           by exact_mod_cast hy.1, by exact_mod_cast hy.2⟩

/-- C5: for a non-degenerate face (triangle with nonzero orientation cross
product), a tile whose 4 corner pixels all satisfy the sign-consistent
half-plane test is always reported as a member of the face, and a tile whose
4 corners all lie strictly outside the triangle on the same side of one of
its edges (cross product of strict sign opposite to the triangle's
orientation) is never reported. -/
theorem tile_membership_correct (v0 v1 v2 t1 t2 : ℕ × ℕ)
    (hD : cross v0 v1 v2 ≠ 0)
    (h1 : ∀ p ∈ tileCorners t1.1 t1.2, cornerIn v0 v1 v2 p)
    (h2 : (∀ p ∈ tileCorners t2.1 t2.2, cross v0 v1 p * cross v0 v1 v2 < 0) ∨
          (∀ p ∈ tileCorners t2.1 t2.2, cross v1 v2 p * cross v0 v1 v2 < 0) ∨
          (∀ p ∈ tileCorners t2.1 t2.2, cross v2 v0 p * cross v0 v1 v2 < 0)) :
    reported v0 v1 v2 t1.1 t1.2 ∧ ¬ reported v0 v1 v2 t2.1 t2.2 := by
  constructor
  · have hc0 : (t1.1 * 256, t1.2 * 256) ∈ tileCorners t1.1 t1.2 := by
      unfold tileCorners; exact List.mem_cons_self _ _
    have hin := h1 _ hc0
    have hbox := cornerIn_bbox v0 v1 v2 (t1.1 * 256, t1.2 * 256) hD hin
    refine ⟨⟨?_, ?_, ?_, ?_⟩, ⟨_, hc0, hin⟩⟩
    · calc triMinX v0 v1 v2 / 256 ≤ t1.1 * 256 / 256 := Nat.div_le_div_right hbox.1
        _ = t1.1 := Nat.mul_div_cancel _ (by norm_num)
    · exact (Nat.le_div_iff_mul_le (by norm_num)).mpr hbox.2.1
    · calc triMinY v0 v1 v2 / 256 ≤ t1.2 * 256 / 256 := Nat.div_le_div_right hbox.2.2.1
        _ = t1.2 := Nat.mul_div_cancel _ (by norm_num)
    · exact (Nat.le_div_iff_mul_le (by norm_num)).mpr hbox.2.2.2
  · rintro ⟨-, p, hpmem, hpin⟩
    have hsum := cross_sum v0 v1 v2 p
    rcases hpin with ⟨ha, hb, hc⟩ | ⟨ha, hb, hc⟩
    · have hDpos : 0 < cross v0 v1 v2 := by
        have hge : 0 ≤ cross v0 v1 v2 := by linarith
        exact hge.lt_of_ne (Ne.symm hD)
      rcases h2 with he | he | he <;>
        exact absurd (he p hpmem) (not_lt.2 (mul_nonneg (by linarith) hDpos.le))
    · have hDneg : cross v0 v1 v2 < 0 := by
        have hle : cross v0 v1 v2 ≤ 0 := by linarith
        exact hle.lt_of_ne hD
      rcases h2 with he | he | he <;>
        exact absurd (he p hpmem)
          (not_lt.2 (mul_nonneg_of_nonpos_of_nonpos (by linarith) hDneg.le))

theorem tile_membership_correct_witness :
    reported (0, 0) (2048, 0) (0, 2048) 1 1 ∧
    ¬ reported (0, 0) (2048, 0) (0, 2048) 100 100 :=
  tile_membership_correct (0, 0) (2048, 0) (0, 2048) (1, 1) (100, 100)
    (by decide) (by decide) (Or.inr (Or.inl (by decide)))

theorem tile_hierarchy_complete_witness :
    parentTile^[2] (3, 2) = (0, 0) ∧
    (∀ k, k < 2 →
      ((iterParent (k + 1) (3, 2), 2 - (k + 1)), (iterParent k (3, 2), 2 - k)) ∈
        (tileHierarchy [(3, 2)] 2).1) ∧
    (∀ k, k ≤ 2 → (iterParent k (3, 2), 2 - k) ∈ (tileHierarchy [(3, 2)] 2).2) :=
  tile_hierarchy_complete [(3, 2)] 2 (3, 2) (by decide) (by decide) (by decide)

theorem dot3_comm (u v : ℝ × ℝ × ℝ) : dot3 u v = dot3 v u := by
  unfold dot3; ring

theorem dot3_self_sphPoint (g l : ℝ) : dot3 (sphPoint g l) (sphPoint g l) = 1 := by
  unfold dot3 sphPoint
  have hg := Real.sin_sq_add_cos_sq g
  have hl := Real.sin_sq_add_cos_sq l
  dsimp only
  linear_combination Real.cos l ^ 2 * hg + hl

theorem dot3_sphPoint (g1 l1 g2 l2 : ℝ) :
    dot3 (sphPoint g1 l1) (sphPoint g2 l2) =
      Real.sin l1 * Real.sin l2 + Real.cos l1 * Real.cos l2 * Real.cos (g2 - g1) := by
  unfold dot3 sphPoint
  rw [Real.cos_sub]
  ring

theorem dot3_sq_le (u v : ℝ × ℝ × ℝ) : dot3 u v ^ 2 ≤ dot3 u u * dot3 v v := by
  unfold dot3
  nlinarith [sq_nonneg (u.1 * v.2.1 - u.2.1 * v.1), sq_nonneg (u.1 * v.2.2 - u.2.2 * v.1),
    sq_nonneg (u.2.1 * v.2.2 - u.2.2 * v.2.1)]

theorem gram_identity (a b c : ℝ × ℝ × ℝ) :
    dot3 a a * dot3 b b * dot3 c c + 2 * (dot3 a b * dot3 b c * dot3 a c)
      - dot3 a c ^ 2 * dot3 b b - dot3 a b ^ 2 * dot3 c c - dot3 b c ^ 2 * dot3 a a
      = triple a b c ^ 2 := by
  unfold dot3 triple; ring

theorem arccos_antitone (x y : ℝ) (hxy : x ≤ y) : Real.arccos y ≤ Real.arccos x := by
  unfold Real.arccos
  have := Real.monotone_arcsin hxy
  linarith

theorem unit_dot_bounds (u v : ℝ × ℝ × ℝ) (hu : dot3 u u = 1) (hv : dot3 v v = 1) :
    -1 ≤ dot3 u v ∧ dot3 u v ≤ 1 := by
  have h := dot3_sq_le u v
  rw [hu, hv] at h
  constructor <;> nlinarith [h]

theorem arccos_triangle (a b c : ℝ × ℝ × ℝ)
    (ha : dot3 a a = 1) (hb : dot3 b b = 1) (hc : dot3 c c = 1) :
    Real.arccos (dot3 a c) ≤ Real.arccos (dot3 a b) + Real.arccos (dot3 b c) := by
  set p := dot3 a c with hp
  set q := dot3 a b with hq
  set r := dot3 b c with hr
  have hpb := unit_dot_bounds a c ha hc
  have hqb := unit_dot_bounds a b ha hb
  have hrb := unit_dot_bounds b c hb hc
  by_cases hpi : Real.arccos q + Real.arccos r ≤ Real.pi
  · have hkey : q * r - Real.sqrt (1 - q ^ 2) * Real.sqrt (1 - r ^ 2) ≤ p := by
      have hgr := gram_identity a b c
      rw [ha, hb, hc, ← hp, ← hq, ← hr] at hgr
      have hG : 0 ≤ 1 + 2 * (q * r * p) - p ^ 2 - q ^ 2 - r ^ 2 := by
        nlinarith [sq_nonneg (triple a b c), hgr]
      by_cases hqr : q * r - p ≤ 0
      · nlinarith [mul_nonneg (Real.sqrt_nonneg (1 - q ^ 2)) (Real.sqrt_nonneg (1 - r ^ 2))]
      · push_neg at hqr
        have hsq : (q * r - p) ^ 2 ≤ (1 - q ^ 2) * (1 - r ^ 2) := by nlinarith [hG]
        have hle : q * r - p ≤ Real.sqrt ((1 - q ^ 2) * (1 - r ^ 2)) :=
          Real.le_sqrt_of_sq_le hsq
        rw [Real.sqrt_mul (by nlinarith [hqb.1, hqb.2] : (0 : ℝ) ≤ 1 - q ^ 2)] at hle
        linarith
    have hcos : Real.cos (Real.arccos q + Real.arccos r) ≤ p := by
      rw [Real.cos_add, Real.cos_arccos hqb.1 hqb.2, Real.cos_arccos hrb.1 hrb.2,
        Real.sin_arccos, Real.sin_arccos]
      exact hkey
    have hmono : Real.arccos p ≤ Real.arccos (Real.cos (Real.arccos q + Real.arccos r)) :=
      arccos_antitone _ _ hcos
    rwa [Real.arccos_cos (add_nonneg (Real.arccos_nonneg q) (Real.arccos_nonneg r)) hpi]
      at hmono
  · linarith [Real.arccos_le_pi p]

theorem sin_half_sq (x : ℝ) : Real.sin (x / 2) ^ 2 = (1 - Real.cos x) / 2 := by
  have hdouble := Real.cos_two_mul' (x / 2)
  have hpyth := Real.sin_sq_add_cos_sq (x / 2)
  have h2x : 2 * (x / 2) = x := by ring
  rw [h2x] at hdouble
  linarith

theorem two_arcsin_sqrt (t : ℝ) (h1 : -1 ≤ t) (h2 : t ≤ 1) :
    2 * Real.arcsin (Real.sqrt ((1 - t) / 2)) = Real.arccos t := by
  have hc0 : 0 ≤ Real.arccos t := Real.arccos_nonneg t
  have hcpi : Real.arccos t ≤ Real.pi := Real.arccos_le_pi t
  have hcos : Real.cos (Real.arccos t) = t := Real.cos_arccos h1 h2
  have hhalf : (1 - t) / 2 = Real.sin (Real.arccos t / 2) ^ 2 := by
    rw [sin_half_sq, hcos]
  rw [hhalf, Real.sqrt_sq (Real.sin_nonneg_of_nonneg_of_le_pi (by linarith) (by linarith))]
  rw [Real.arcsin_sin (by linarith [Real.pi_pos]) (by linarith)]
  ring

theorem haversine_eq_arccos (g1 l1 g2 l2 : ℝ) :
    haversine_distance g1 l1 g2 l2 =
      6371 * Real.arccos (dot3 (sphPoint g1 l1) (sphPoint g2 l2)) := by
  have hbounds := unit_dot_bounds _ _ (dot3_self_sphPoint g1 l1) (dot3_self_sphPoint g2 l2)
  have harg : Real.sin ((l2 - l1) / 2) ^ 2 +
      Real.cos l1 * Real.cos l2 * Real.sin ((g2 - g1) / 2) ^ 2 =
      (1 - dot3 (sphPoint g1 l1) (sphPoint g2 l2)) / 2 := by
    rw [dot3_sphPoint, sin_half_sq, sin_half_sq, Real.cos_sub]
    ring
  simp only [haversine_distance]
  rw [harg]
  have hfac : 2 * (6371 : ℝ) *
      Real.arcsin (Real.sqrt ((1 - dot3 (sphPoint g1 l1) (sphPoint g2 l2)) / 2)) =
      6371 * (2 *
        Real.arcsin (Real.sqrt ((1 - dot3 (sphPoint g1 l1) (sphPoint g2 l2)) / 2))) := by
    ring
  rw [hfac, two_arcsin_sqrt _ hbounds.1 hbounds.2]

/-- C8: the haversine distance is symmetric, zero on identical points, and
satisfies the triangle inequality for any 3 points (over the real-number
semantics of the formula). -/
theorem haversine_properties :
    (∀ g1 l1 g2 l2 : ℝ, haversine_distance g1 l1 g2 l2 = haversine_distance g2 l2 g1 l1) ∧
    (∀ g l : ℝ, haversine_distance g l g l = 0) ∧
    (∀ g1 l1 g2 l2 g3 l3 : ℝ,
      haversine_distance g1 l1 g3 l3 ≤
        haversine_distance g1 l1 g2 l2 + haversine_distance g2 l2 g3 l3) := by
  refine ⟨?_, ?_, ?_⟩
  · intro g1 l1 g2 l2
    rw [haversine_eq_arccos, haversine_eq_arccos, dot3_comm]
  · intro g l
    rw [haversine_eq_arccos, dot3_self_sphPoint, Real.arccos_one, mul_zero]
  · intro g1 l1 g2 l2 g3 l3
    rw [haversine_eq_arccos, haversine_eq_arccos, haversine_eq_arccos]
    have h := arccos_triangle (sphPoint g1 l1) (sphPoint g2 l2) (sphPoint g3 l3)
      (dot3_self_sphPoint g1 l1) (dot3_self_sphPoint g2 l2) (dot3_self_sphPoint g3 l3)
    linarith

theorem splitOnChar_not_mem (sep : Char) (l : List Char) (h : sep ∉ l) :
    splitOnChar sep l = [l] := by
  induction l with
  | nil => rfl
  | cons c rest ih =>
    have hc : ¬ c = sep := fun he => h (by rw [he]; exact List.mem_cons_self _ _)
    have hrest : sep ∉ rest := fun hm => h (List.mem_cons_of_mem _ hm)
    unfold splitOnChar
    rw [if_neg hc, ih hrest]

theorem splitOnChar_append (sep : Char) (a b : List Char) (ha : sep ∉ a) :
    splitOnChar sep (a ++ sep :: b) = a :: splitOnChar sep b := by
  induction a with
  | nil => simp [splitOnChar]
  | cons c rest ih =>
    have hc : ¬ c = sep := fun he => ha (by rw [he]; exact List.mem_cons_self _ _)
    have hrest : sep ∉ rest := fun hm => ha (List.mem_cons_of_mem _ hm)
    show splitOnChar sep (c :: (rest ++ sep :: b)) = (c :: rest) :: splitOnChar sep b
    simp [splitOnChar, hc, ih hrest]

theorem digitChar_isDigit (d : ℕ) (h : d < 10) : (digitChar d).isDigit = true := by
  interval_cases d <;> decide

theorem digitVal_digitChar (d : ℕ) (h : d < 10) : digitVal (digitChar d) = d := by
  interval_cases d <;> decide

theorem keepChar_ne (c : Char) (h : keepChar c = true) : c ≠ ',' ∧ c ≠ '-' := by
  constructor <;> intro he <;> rw [he] at h <;> exact absurd h (by decide)

theorem natDigitsRevAux_spec (fuel : ℕ) : ∀ n, n ≤ fuel →
    valLE (natDigitsRevAux fuel n) = n ∧ ∀ d ∈ natDigitsRevAux fuel n, d < 10 := by
  induction fuel with
  | zero =>
    intro n hn
    have h0 : n = 0 := by omega
    subst h0
    exact ⟨rfl, by simp [natDigitsRevAux]⟩
  | succ f ih =>
    intro n hn
    cases n with
    | zero => exact ⟨rfl, by simp [natDigitsRevAux]⟩
    | succ m =>
      have hdiv : (m + 1) / 10 ≤ f := by omega
      have ihd := ih ((m + 1) / 10) hdiv
      constructor
      · simp only [natDigitsRevAux, valLE]
        rw [ihd.1]
        omega
      · intro d hd
        simp only [natDigitsRevAux] at hd
        rcases List.mem_cons.mp hd with h | h
        · subst h; omega
        · exact ihd.2 d h

theorem valLE_natDigitsRev (n : ℕ) : valLE (natDigitsRev n) = n :=
  (natDigitsRevAux_spec n n le_rfl).1

theorem natDigitsRev_lt (n : ℕ) : ∀ d ∈ natDigitsRev n, d < 10 :=
  (natDigitsRevAux_spec n n le_rfl).2

theorem digitsVal_append_single (xs : List Char) (c : Char) :
    digitsVal (xs ++ [c]) = 10 * digitsVal xs + digitVal c := by
  unfold digitsVal
  rw [List.foldl_append]
  rfl

theorem digitsVal_reverse (l : List ℕ) (h : ∀ d ∈ l, d < 10) :
    digitsVal (l.reverse.map digitChar) = valLE l := by
  induction l with
  | nil => rfl
  | cons d ds ih =>
    rw [List.reverse_cons, List.map_append, List.map_cons, List.map_nil,
      digitsVal_append_single,
      ih (fun x hx => h x (List.mem_cons_of_mem _ hx)),
      digitVal_digitChar d (h d (List.mem_cons_self _ _))]
    simp only [valLE]
    omega

theorem digitsVal_natToString (n : ℕ) : digitsVal (natToString n) = n := by
  unfold natToString
  split_ifs with h
  · subst h; rfl
  · rw [digitsVal_reverse _ (natDigitsRev_lt n), valLE_natDigitsRev]

theorem natToString_all_digits (n : ℕ) : ∀ c ∈ natToString n, c.isDigit = true := by
  unfold natToString
  split_ifs with h
  · intro c hc
    simp only [List.mem_singleton] at hc
    subst hc
    decide
  · intro c hc
    rw [List.mem_map] at hc
    obtain ⟨d, hd, rfl⟩ := hc
    exact digitChar_isDigit d (natDigitsRev_lt n d (List.mem_reverse.mp hd))

theorem natToString_ne_nil (n : ℕ) : natToString n ≠ [] := by
  unfold natToString
  split_ifs with h
  · simp
  · cases n with
    | zero => exact absurd rfl h
    | succ m =>
      simp only [natDigitsRev, natDigitsRevAux]
      simp

theorem parseU32_natToString (id : ℕ) (hid : id < 2 ^ 32) :
    parseU32 (natToString id) = some id := by
  have hcond : natToString id ≠ [] ∧ (natToString id).all Char.isDigit = true ∧
      digitsVal (natToString id) < 2 ^ 32 := by
    refine ⟨natToString_ne_nil id, ?_, ?_⟩
    · rw [List.all_eq_true]
      exact fun c hc => natToString_all_digits id c hc
    · rw [digitsVal_natToString]
      exact hid
  unfold parseU32
  rw [if_pos hcond, digitsVal_natToString]

theorem filter_locPrefix : locPrefix.filter keepChar = [] := by decide

theorem filter_latMid : latMid.filter keepChar = [] := by decide

theorem filter_locSuffix : locSuffix.filter keepChar = [] := by decide

theorem filter_keep_all (l : List Char) (h : l.all keepChar = true) :
    l.filter keepChar = l :=
  List.filter_eq_self.mpr (by rw [List.all_eq_true] at h; exact h)

theorem parseF64_eq_parseDec (l : List Char) (h : l.all keepChar = true) :
    parseF64 l = parseDec l := by
  cases l with
  | nil => rfl
  | cons c rest =>
    have hc : keepChar c = true := by
      rw [List.all_eq_true] at h
      exact h c (List.mem_cons_self _ _)
    have hm : ¬ c = '-' := (keepChar_ne c hc).2
    simp only [parseF64]
    rw [if_neg hm]

/-- C9 (amended): a node row written by `write_nodes` with a u32 id and
sign-free decimal renderings of longitude and latitude (and a comma-free
altitude field) is read back by the later stages' `read_nodes` parser to the
same NodeID and to exactly the longitude and latitude values the writer
rendered. (Negative coordinates do not round-trip: see the counterexample,
where the reader's digit filter strips the minus sign.) -/
theorem write_read_roundtrip (id : ℕ) (L B A : List Char) (dL dB : ℤ × ℕ)
    (hid : id < 2 ^ 32)
    (hLc : L.all keepChar = true)
    (hBc : B.all keepChar = true)
    (hLp : parseDec L = some dL)
    (hBp : parseDec B = some dB)
    (hA : ',' ∉ A) :
    readNodeRow (writeNodeRow id L B A) = some (id, dL, dB) := by
  have hidc : ',' ∉ natToString id := fun hm =>
    absurd (natToString_all_digits id ',' hm) (by decide)
  have hLcm : ',' ∉ L := by
    intro hm
    rw [List.all_eq_true] at hLc
    exact (keepChar_ne ',' (hLc ',' hm)).1 rfl
  have hBcm : ',' ∉ B := by
    intro hm
    rw [List.all_eq_true] at hBc
    exact (keepChar_ne ',' (hBc ',' hm)).1 rfl
  rw [List.all_eq_true] at hLc hBc
  have hLc' : L.all keepChar = true := by rw [List.all_eq_true]; exact hLc
  have hBc' : B.all keepChar = true := by rw [List.all_eq_true]; exact hBc
  have e1 : writeNodeRow id L B A =
      natToString id ++ ',' :: ((locPrefix ++ L) ++
        ',' :: (((latMid ++ B) ++ locSuffix) ++ ',' :: (A ++ ',' :: riverLabel))) := by
    unfold writeNodeRow locationField
    simp [List.append_assoc]
  have h1 : ',' ∉ locPrefix ++ L := by
    intro hm
    rcases List.mem_append.mp hm with h | h
    · exact absurd h (by decide)
    · exact hLcm h
  have h2 : ',' ∉ (latMid ++ B) ++ locSuffix := by
    intro hm
    rcases List.mem_append.mp hm with h | h
    · rcases List.mem_append.mp h with h' | h'
      · exact absurd h' (by decide)
      · exact hBcm h'
    · exact absurd h (by decide)
  have hsplit : splitOnChar ',' (writeNodeRow id L B A) =
      [natToString id, locPrefix ++ L, (latMid ++ B) ++ locSuffix, A, riverLabel] := by
    rw [e1, splitOnChar_append _ _ _ hidc, splitOnChar_append _ _ _ h1,
      splitOnChar_append _ _ _ h2, splitOnChar_append _ _ _ hA,
      splitOnChar_not_mem _ _ (by decide)]
  have hne : ¬ writeNodeRow id L B A = [] := by
    rw [e1]
    simp
  have hf1 : (locPrefix ++ L).filter keepChar = L := by
    rw [List.filter_append, filter_locPrefix, filter_keep_all L hLc', List.nil_append]
  have hf2 : ((latMid ++ B) ++ locSuffix).filter keepChar = B := by
    rw [List.filter_append, List.filter_append, filter_latMid, filter_locSuffix,
      filter_keep_all B hBc', List.nil_append, List.append_nil]
  unfold readNodeRow
  rw [if_neg hne, hsplit]
  simp only [hf1, hf2, parseU32_natToString id hid, parseF64_eq_parseDec L hLc',
    parseF64_eq_parseDec B hBc', hLp, hBp]

theorem write_read_roundtrip_witness :
    readNodeRow (writeNodeRow 7 ("1.5".toList) ("35".toList) ("0".toList)) =
      some (7, (15, 1), (35, 0)) :=
  write_read_roundtrip 7 ("1.5".toList) ("35".toList) ("0".toList) (15, 1) (35, 0)
    (by decide) (by decide) (by decide) (by decide) (by decide) (by decide)

/-- C9 counterexample: a node whose longitude is negative does not round-trip.
Rust renders the longitude -135.5 as "-135.5"; the written row is read back
with longitude +135.5 (the reader keeps only digits and dots, silently
dropping the minus sign), so the persisted row does not round-trip to the
same longitude for every finite coordinate. -/
theorem read_nodes_sign_lost :
    parseF64 ("-135.5".toList) = some (-1355, 1) ∧
    readNodeRow (writeNodeRow 1 ("-135.5".toList) ("35".toList) ("0".toList)) =
      some (1, (1355, 1), (35, 0)) ∧
    decValue (1355, 1) ≠ decValue (-1355, 1) := by
  refine ⟨by decide, by decide, ?_⟩
  unfold decValue
  norm_num
